import Mathlib

/-!
# Verification of `gr_file_meta_sink` (gnuradio-core/src/lib/io/gr_file_meta_sink.cc)

Shallow embedding of the metadata file sink.  The block consumes a stream of
fixed-size items plus offset-tagged annotations ("tags"), writes the payload to
a file interleaved with (or detached from) fixed-size metadata headers, and
patches the previous header in place at every segment boundary.

Modelling conventions:
* PMT values (`pmt_t`, from the gruel library, which is not part of the sources
  under verification) are modelled by the inductive `Pmt`; PMT dictionaries are
  association lists.  `pmt_dict_add` replaces an existing binding and conses the
  new binding at the front (gruel's `acons` after delete), which is reference
  equivalent to any other order.  The PMT accessors (`pmt_to_uint64`, ...)
  throw in C++ on a value of the wrong type; the model returns a default in
  that off-domain case.  Every value the sink itself stores and reads back is
  well typed, so the default is never observed in any theorem below.
* `double` is modelled by `ℚ` (ideal real arithmetic; no claim here depends on
  rounding), `size_t`/`uint64_t`/`int` counters by `Nat`/`Int`.  All quantities
  in the claims stay far below `2^64`, where the C arithmetic is exact.
* `pmt_serialize_str` lives in the gruel library (not under the sources);
  its byte length is abstracted by a parameter `serSize` on every definition
  that needs it.  The fixed-schema header always serializes to
  `METADATA_HEADER_SIZE` bytes (an invariant stated by the spec); where a
  theorem needs that fact it appears as an explicit hypothesis.
* The output file is modelled by the sequence of header records it contains,
  in file order; patching the previous header in place (`update_last_header`)
  replaces the last record, appending a fresh header (`write_and_update`)
  appends a record.  The byte-level seek arithmetic justifying "the rewrite
  lands exactly on the previous header" is verified separately on a
  cursor-instrumented model of `update_last_header_inline`.
* `fwrite` outcomes are an oracle `Nat → Bool` indexed by the fwrite call
  number within one `work` call: `true` means the full requested count is
  written, `false` means the call reports 0 items (the only short count the
  code distinguishes).
-/

namespace FileMetaSink

/-- PMT values, as used by the sink (gruel `pmt_t`). -/
inductive Pmt where
  | nil
  | int (n : Int)
  | uint64 (n : Nat)
  | dbl (q : ℚ)
  | bool (b : Bool)
  | tuple2 (a b : Pmt)
  deriving DecidableEq, Repr

/-- A PMT dictionary: association list from symbol names to values. -/
abbrev PmtDict := List (String × Pmt)

/-- Embedding of `pmt_dict_ref dict key not_found`. -/
def dict_ref : PmtDict → String → Pmt → Pmt
  | [], _, d0 => d0
  | (k', v) :: rest, k, d0 => if k = k' then v else dict_ref rest k d0

/-- Embedding of `pmt_dict_has_key dict key`. -/
def dict_has_key : PmtDict → String → Bool
  | [], _ => false
  | (k', _) :: rest, k => k = k' || dict_has_key rest k

/-- Embedding of `pmt_dict_add dict key value`: replace any existing binding of `key`. -/
def dict_add (d : PmtDict) (k : String) (v : Pmt) : PmtDict :=
  (k, v) :: d.filter (fun p => p.1 != k)

/-- Embedding of `pmt_to_uint64`; throws on non-uint64 in C++, default `0` off-domain. -/
def pmt_to_uint64 : Pmt → Nat
  | .uint64 n => n
  | _ => 0

/-- Embedding of `pmt_to_double`; throws on non-double in C++, default `0` off-domain. -/
def pmt_to_double : Pmt → ℚ
  | .dbl q => q
  | _ => 0

/-- Embedding of `pmt_tuple_ref t k` for the 2-tuples the sink stores in `rx_time`. -/
def pmt_tuple_ref (p : Pmt) (k : Nat) : Pmt :=
  match p with
  | .tuple2 a b => if k = 0 then a else b
  | _ => .nil

/-- Embedding of `static_cast<uint64_t>` on a nonnegative double: truncation toward zero,
which for the nonnegative arguments reached by the code equals the floor. -/
def double_to_uint64 (q : ℚ) : Nat := (⌊q⌋).toNat

/-- Modelled from the spec: `HEADER_FIXED_SIZE`, the fixed serialized size of
the standard header.  The numeral is the value of `METADATA_HEADER_SIZE` from
the companion header `gr_file_meta_sink.h`, which is not under the sources
being verified; no theorem below depends on the particular numeral. -/
def METADATA_HEADER_SIZE : Nat := 149

/-- Modelled from the spec: the metadata format version constant
(`METADATA_VERSION` from the companion header, not under the sources). -/
def METADATA_VERSION : Int := 0

/-- The mutable state of `gr_file_meta_sink` relevant to the claims
(file pointers are modelled separately). -/
structure SinkState where
  d_itemsize : Nat
  d_samp_rate : ℚ
  d_relative_rate : ℚ
  d_max_seg_size : Nat
  d_total_seg_size : Nat
  d_header : PmtDict
  d_extra : PmtDict
  d_extra_size : Nat
  deriving DecidableEq, Repr

/-- A stream tag (`gr_tag_t`) as seen by `work`, with its offset already
translated to an item offset relative to the start of the call
(`item_offset = itr->offset - abs_N` in the source). -/
structure GrTag where
  offset : Nat
  key : String
  value : Pmt
  deriving DecidableEq, Repr

/-- One header record as it stands in the output file: the serialized header
dictionary together with its extension dictionary. -/
abbrev HeaderRec := PmtDict × PmtDict

/-- The sink state together with the header records emitted to the file,
in file order. -/
structure Model where
  sink : SinkState
  headers : List HeaderRec
  deriving DecidableEq, Repr

/-- Loop state inside one `work` call: `nwritten` items committed so far,
`idx` the number of `fwrite` calls made so far (indexes the oracle). -/
structure WState where
  nwritten : Nat
  idx : Nat
  sink : SinkState
  headers : List HeaderRec
  deriving DecidableEq, Repr

/-- Embedding of `gr_file_meta_sink::update_header(key, value)`: rate values are rescaled
by the relative rate; keys of the fixed header schema update the header,
any other key updates the extension dictionary and its tracked size. -/
def update_header (serSize : PmtDict → Nat) (st : SinkState) (key : String)
    (value : Pmt) : SinkState :=
  let stv :=
    if key = "rx_rate" then
      let sr := pmt_to_double value
      ({ st with d_samp_rate := sr }, Pmt.dbl (sr * st.d_relative_rate))
    else (st, value)
  let st := stv.1
  let value := stv.2
  if dict_has_key st.d_header key then
    { st with d_header := dict_add st.d_header key value }
  else
    let e := dict_add st.d_extra key value
    { st with d_extra := e, d_extra_size := serSize e }

/-- Embedding of `gr_file_meta_sink::update_rx_time()`: advance the header timestamp by
`d_total_seg_size / (d_samp_rate * d_relative_rate)` seconds, carrying whole
seconds from the fractional part into the integer part. -/
def update_rx_time (st : SinkState) : SinkState :=
  let r := dict_ref st.d_header "rx_time" Pmt.nil
  let secs := pmt_to_uint64 (pmt_tuple_ref r 0)
  let fracs := pmt_to_double (pmt_tuple_ref r 1)
  let diff : ℚ := (st.d_total_seg_size : ℚ) / (st.d_samp_rate * st.d_relative_rate)
  let fracs := fracs + diff
  let new_secs := double_to_uint64 fracs
  let secs := secs + new_secs
  let fracs := fracs - (new_secs : ℚ)
  let r := Pmt.tuple2 (.uint64 secs) (.dbl fracs)
  { st with d_header := dict_add st.d_header "rx_time" r }

/-- The header-dictionary mutations performed by
`gr_file_meta_sink::update_last_header_inline` / `_detached`: patch `bytes`
with the byte count of the closing segment and refresh `strt`. -/
def update_last_header_state (serSize : PmtDict → Nat) (st : SinkState) : SinkState :=
  let seg_size := st.d_itemsize * st.d_total_seg_size
  let st := update_header serSize st "bytes" (.uint64 seg_size)
  update_header serSize st "strt" (.uint64 (METADATA_HEADER_SIZE + st.d_extra_size))

/-- The header-dictionary mutations performed by
`gr_file_meta_sink::write_and_update`: a fresh header starts with `bytes = 0`
and `strt = METADATA_HEADER_SIZE + d_extra_size`. -/
def write_and_update_state (serSize : PmtDict → Nat) (st : SinkState) : SinkState :=
  let st := update_header serSize st "bytes" (.uint64 0)
  update_header serSize st "strt" (.uint64 (METADATA_HEADER_SIZE + st.d_extra_size))

/-- Replace the last element of a list (the in-place header rewrite). -/
def setLast : List HeaderRec → HeaderRec → List HeaderRec
  | [], _ => []
  | [_], r => [r]
  | x :: xs, r => x :: setLast xs r

/-- Embedding of `update_last_header()` at the file level: mutate the header dictionaries
and rewrite the last emitted header record in place (the seek arithmetic
that justifies "in place" is verified on the cursor model below). -/
def patchLast (serSize : PmtDict → Nat) (st : SinkState) (hs : List HeaderRec) :
    SinkState × List HeaderRec :=
  let st := update_last_header_state serSize st
  (st, setLast hs (st.d_header, st.d_extra))

/-- Embedding of `write_and_update()` at the file level: mutate the header dictionaries and
append the fresh header record to the file. -/
def appendFresh (serSize : PmtDict → Nat) (st : SinkState) (hs : List HeaderRec) :
    SinkState × List HeaderRec :=
  let st := write_and_update_state serSize st
  (st, hs ++ [(st.d_header, st.d_extra)])

/-- The size-mismatch test of `gr_file_meta_sink::write_header`: the source
throws only when the serialized header size *and* the serialized extras size
are both wrong (`&&` in the condition at line 241). -/
def write_header_throws (d_extra_size : Nat) (header_len extra_len : Nat) : Bool :=
  (header_len != METADATA_HEADER_SIZE) && (extra_len != d_extra_size)

/-- Cursor-instrumented `gr_file_meta_sink::update_last_header_inline`:
`pos` is the current write cursor of the inline file.  Returns the new sink
state, the final cursor, and the trace of `(start, length)` byte ranges
rewritten by `write_header`.  A complete `write_header` advances the cursor
by the serialized header plus extras length. -/
def update_last_header_inline_file (serSize : PmtDict → Nat) (st : SinkState)
    (pos : Int) : SinkState × Int × List (Int × Nat) :=
  let hdrlen := pmt_to_uint64 (dict_ref st.d_header "strt" Pmt.nil)
  let seg_size := st.d_itemsize * st.d_total_seg_size
  let st := update_last_header_state serSize st
  let wrpos := pos - (seg_size : Int) - (hdrlen : Int)
  let wrlen := serSize st.d_header + serSize st.d_extra
  let pos := wrpos + (wrlen : Int) + (seg_size : Int)
  (st, pos, [(wrpos, wrlen)])

/-- Embedding of `towrite = std::min(d_max_seg_size - d_total_seg_size, limit - nwritten)`
(a `size_t` computation: truncated subtraction). -/
def chunkTowrite (limit : Nat) (w : WState) : Nat :=
  min (w.sink.d_max_seg_size - w.sink.d_total_seg_size) (limit - w.nwritten)

/-- The item count reported by one `fwrite` call: the full `towrite` on
success, `0` on failure (also `0` whenever `towrite = 0`). -/
def chunkCount (oracle : Nat → Bool) (limit : Nat) (w : WState) : Nat :=
  if oracle w.idx then chunkTowrite limit w else 0

/-- Commit one successful chunk: `nwritten += count; inbuf advances;
d_total_seg_size += count` (and one more `fwrite` call was made). -/
def chunkAdvance (oracle : Nat → Bool) (limit : Nat) (w : WState) : WState :=
  let count := chunkCount oracle limit w
  { w with nwritten := w.nwritten + count, idx := w.idx + 1, sink := { w.sink with d_total_seg_size := w.sink.d_total_seg_size + count } }

/-- A size-triggered segment boundary: `update_last_header();
update_rx_time(); write_and_update(); d_total_seg_size = 0;`. -/
def chunkBoundary (serSize : PmtDict → Nat) (w : WState) : WState :=
  let sh := patchLast serSize w.sink w.headers
  let st := update_rx_time sh.1
  let sh2 := appendFresh serSize st sh.2
  let st2 := { sh2.1 with d_total_seg_size := 0 }
  { w with sink := st2, headers := sh2.2 }

/-- One of the two payload-writing loops of `gr_file_meta_sink::work`.
`tagLoop = true` is the loop before a tag (lines 400–420): the segment reset
fires only when the tag's offset has not yet been reached.  `tagLoop = false`
is the tail loop (lines 435–451): the reset fires whenever the segment is
full.  `oracle` gives each `fwrite` outcome; a reported count of 0 breaks the
loop (also when `towrite = 0`, since `fwrite` of zero members returns 0). -/
def writeLoop (serSize : PmtDict → Nat) (oracle : Nat → Bool) (limit : Nat)
    (tagLoop : Bool) : Nat → WState → WState
  | 0, w => w
  | fuel + 1, w =>
    if w.nwritten < limit then
      if chunkCount oracle limit w = 0 then
        { w with idx := w.idx + 1 }
      else
        if (chunkAdvance oracle limit w).sink.d_total_seg_size
              = (chunkAdvance oracle limit w).sink.d_max_seg_size ∧
            (tagLoop → (chunkAdvance oracle limit w).nwritten < limit) then
          writeLoop serSize oracle limit tagLoop fuel
            (chunkBoundary serSize (chunkAdvance oracle limit w))
        else
          writeLoop serSize oracle limit tagLoop fuel
            (chunkAdvance oracle limit w)
    else w

/-- The per-tag branch of `gr_file_meta_sink::work` (lines 422–431): if any
payload was written into the open segment, finalize it, apply the tag and
append a fresh header; otherwise apply the tag and rewrite the still-empty
header in place. -/
def handleTag (serSize : PmtDict → Nat) (tag : GrTag) (w : WState) : WState :=
  if 0 < w.sink.d_total_seg_size then
    let sh := patchLast serSize w.sink w.headers
    let st := update_header serSize sh.1 tag.key tag.value
    let sh2 := appendFresh serSize st sh.2
    { w with sink := { sh2.1 with d_total_seg_size := 0 }, headers := sh2.2 }
  else
    let st := update_header serSize w.sink tag.key tag.value
    let sh := patchLast serSize st w.headers
    { w with sink := sh.1, headers := sh.2 }

/-- Embedding of `gr_file_meta_sink::work`: when no active file handle exists (after the
rotation check `do_update`), the whole input is dropped and the full count
reported; otherwise write payload up to each tag, handle the tag, then write
the buffer tail, and return the number of items committed (`nwritten`). -/
def work (serSize : PmtDict → Nat) (oracle : Nat → Bool) (hasFp : Bool)
    (m : Model) (noutput_items : Nat) (tags : List GrTag) : Model × Nat :=
  if hasFp then
    let w0 : WState := { nwritten := 0, idx := 0, sink := m.sink, headers := m.headers }
    let w1 := tags.foldl (fun w tag =>
      handleTag serSize tag
        (writeLoop serSize oracle tag.offset true tag.offset w)) w0
    let w2 := writeLoop serSize oracle noutput_items false noutput_items w1
    ({ sink := w2.sink, headers := w2.headers }, w2.nwritten)
  else
    (m, noutput_items)

/-- Embedding of `gr_file_meta_sink::close` (via `update_last_header`): patch the trailing
header before the file is closed. -/
def close_model (serSize : PmtDict → Nat) (m : Model) : Model :=
  let sh := patchLast serSize m.sink m.headers
  { sink := sh.1, headers := sh.2 }

/-- The constructor `gr_file_meta_sink::gr_file_meta_sink`: seed the extension
dictionary from the (already deserialized) caller blob, build the fixed-schema
header, and write the first header record to the destination.  `extra0` is
the key/value list of the deserialized `extra_dict` blob
(`pmt_deserialize_str` lives in the gruel library, outside the sources). -/
def initModel (serSize : PmtDict → Nat) (itemsize : Nat) (samp_rate relative_rate : ℚ)
    (type : Int) (cplx : Bool) (max_segment_size : Nat) (extra0 : PmtDict) : Model :=
  let extra := extra0.foldl (fun d p => dict_add d p.1 p.2) []
  let extra_size := serSize extra
  let hdr : PmtDict := []
  let hdr := dict_add hdr "version" (.int METADATA_VERSION)
  let hdr := dict_add hdr "rx_rate" (.dbl samp_rate)
  let hdr := dict_add hdr "rx_time" (.tuple2 (.uint64 0) (.dbl 0))
  let hdr := dict_add hdr "size" (.int itemsize)
  let hdr := dict_add hdr "type" (.int type)
  let hdr := dict_add hdr "cplx" (.bool cplx)
  let hdr := dict_add hdr "strt" (.uint64 (METADATA_HEADER_SIZE + extra_size))
  let hdr := dict_add hdr "bytes" (.uint64 0)
  let st : SinkState := { d_itemsize := itemsize, d_samp_rate := samp_rate, d_relative_rate := relative_rate, d_max_seg_size := max_segment_size, d_total_seg_size := 0, d_header := hdr, d_extra := extra, d_extra_size := extra_size }
  { sink := st, headers := [(hdr, extra)] }

/-- The `bytes` (segment byte count) field of a header record in the file. -/
def bytesOf (h : HeaderRec) : Nat := pmt_to_uint64 (dict_ref h.1 "bytes" Pmt.nil)

/-- The `strt` (segment start offset) field of a header record in the file. -/
def strtOf (h : HeaderRec) : Nat := pmt_to_uint64 (dict_ref h.1 "strt" Pmt.nil)

/-- Sum of the segment byte counts over all header records in the file. -/
def sumBytes (hs : List HeaderRec) : Nat := (hs.map bytesOf).sum

/-- The byte count of the last (currently open) header record. -/
def lastBytes (hs : List HeaderRec) : Nat := bytesOf (hs.getLastD ([], []))

/-- A sequence of `work` calls with no tags and fully succeeding writes;
returns the final model and the total item count the calls reported. -/
def runCalls (serSize : PmtDict → Nat) (m : Model) : List Nat → Model × Nat
  | [] => (m, 0)
  | n :: ns =>
    let r := work serSize (fun _ => true) true m n []
    let rest := runCalls serSize r.1 ns
    (rest.1, r.2 + rest.2)

/-- One `work` call's inputs: item count, tags, and the fwrite oracle. -/
structure CallSpec where
  n : Nat
  tags : List GrTag
  oracle : Nat → Bool

/-- A sequence of arbitrary `work` calls. -/
def runCallsG (serSize : PmtDict → Nat) (m : Model) : List CallSpec → Model
  | [] => m
  | c :: cs => runCallsG serSize (work serSize c.oracle true m c.n c.tags).1 cs

/-- The header dictionary always keeps the fixed-schema keys `bytes`/`strt`
that the finalize/open paths update (seeded by the constructor; no operation
ever removes a header key). -/
def HdrKeysOK (st : SinkState) : Prop :=
  dict_has_key st.d_header "bytes" = true ∧ dict_has_key st.d_header "strt" = true

/-- Loop invariant for the no-annotation runs: all items except the ones in
the currently open segment are accounted for by patched headers, and the open
header still reads 0 bytes. -/
def InvC1 (isz base : Nat) (w : WState) : Prop :=
  w.sink.d_itemsize = isz ∧ HdrKeysOK w.sink ∧ w.headers ≠ [] ∧
  lastBytes w.headers = 0 ∧
  sumBytes w.headers + isz * w.sink.d_total_seg_size = isz * (base + w.nwritten)

/-- The model-level invariant between `work` calls for no-annotation runs. -/
def InvM (isz tw : Nat) (m : Model) : Prop :=
  m.sink.d_itemsize = isz ∧ HdrKeysOK m.sink ∧ m.headers ≠ [] ∧
  lastBytes m.headers = 0 ∧
  sumBytes m.headers + isz * m.sink.d_total_seg_size = isz * tw

/-- Every header record in the file respects the segment byte cap. -/
def BytesBounded (isz max : Nat) (hs : List HeaderRec) : Prop :=
  ∀ h ∈ hs, bytesOf h ≤ isz * max

/-- Loop invariant for the cap claim, preserved by arbitrary calls. -/
def InvC2 (isz max : Nat) (w : WState) : Prop :=
  w.sink.d_itemsize = isz ∧ w.sink.d_max_seg_size = max ∧ HdrKeysOK w.sink ∧
  w.sink.d_total_seg_size ≤ max ∧ BytesBounded isz max w.headers

/-- Model-level version of the cap invariant, between `work` calls. -/
def InvMC2 (isz max : Nat) (m : Model) : Prop :=
  m.sink.d_itemsize = isz ∧ m.sink.d_max_seg_size = max ∧ HdrKeysOK m.sink ∧
  m.sink.d_total_seg_size ≤ max ∧ BytesBounded isz max m.headers

/-! ## Concrete fixtures used to evaluate the theorems on closed inputs -/

/-- A simple concrete stand-in for the serializer's byte length. -/
def serLen : PmtDict → Nat := fun d => d.length

/-- A serializer-length stand-in matching the fixed-header-size invariant on
the nonempty dictionaries of the cursor fixture. -/
def serFix : PmtDict → Nat := fun d => if d = [] then 0 else METADATA_HEADER_SIZE

/-- A concrete header dictionary in the steady state of the sink. -/
def fixHeader : PmtDict :=
  dict_add (dict_add (dict_add (dict_add [] "rx_rate" (.dbl 6)) "rx_time" (.tuple2 (.uint64 10) (.dbl (7/10)))) "strt" (.uint64 149)) "bytes" (.uint64 0)

/-- A concrete sink state with three items in the open segment. -/
def fixSink : SinkState :=
  { d_itemsize := 4, d_samp_rate := 6, d_relative_rate := 1, d_max_seg_size := 10, d_total_seg_size := 3, d_header := fixHeader, d_extra := [], d_extra_size := 0 }

/-- A concrete loop state over `fixSink` with one emitted header. -/
def fixW : WState :=
  { nwritten := 0, idx := 0, sink := fixSink, headers := [(fixHeader, [])] }

/-- A concrete annotation with a non-schema key. -/
def fixTag : GrTag := { offset := 0, key := "foo", value := .dbl 7 }

/-- A concrete call sequence with one annotated call (small enough that no
size boundary fires, so no rational arithmetic is needed to evaluate it). -/
def fixRuns : List CallSpec :=
  [{ n := 2, tags := [{ offset := 1, key := "foo", value := .dbl 1 }], oracle := fun _ => true }]

/-- A concrete starting model (item size 4, segment cap 3). -/
def fixModel : Model := initModel serLen 4 6 1 0 false 3 []

/-- A concrete sink state in the steady state of the cursor invariant
(`strt` holds `METADATA_HEADER_SIZE + d_extra_size`). -/
def fixSink9 : SinkState :=
  { d_itemsize := 4, d_samp_rate := 6, d_relative_rate := 1, d_max_seg_size := 10, d_total_seg_size := 3, d_header := dict_add (dict_add [] "strt" (.uint64 149)) "bytes" (.uint64 0), d_extra := [], d_extra_size := 0 }

/-! ## Dictionary lemmas -/

@[simp] theorem dict_ref_add_self (d : PmtDict) (k : String) (v d0 : Pmt) :
    dict_ref (dict_add d k v) k d0 = v := by
  simp [dict_add, dict_ref]

theorem dict_ref_filter_ne (d : PmtDict) (k k' : String) (d0 : Pmt) (h : k' ≠ k) :
    dict_ref (d.filter (fun p => p.1 != k)) k' d0 = dict_ref d k' d0 := by
  induction d with
  | nil => rfl
  | cons p rest ih =>
    obtain ⟨a, b⟩ := p
    by_cases hp : a = k
    · have hb : ((a, b).1 != k) = false := by simp [hp]
      have hne : ¬(k' = a) := fun hk => h (hk.trans hp)
      simp only [List.filter_cons, hb, Bool.false_eq_true, if_false, ih, dict_ref,
        if_neg hne]
    · have hb : ((a, b).1 != k) = true := by simp [hp]
      simp only [List.filter_cons, hb, if_true, dict_ref, ih]

theorem dict_ref_add_ne (d : PmtDict) (k k' : String) (v d0 : Pmt) (h : k' ≠ k) :
    dict_ref (dict_add d k v) k' d0 = dict_ref d k' d0 := by
  simp only [dict_add, dict_ref]
  rw [if_neg h]
  exact dict_ref_filter_ne d k k' d0 h

@[simp] theorem dict_has_key_add_self (d : PmtDict) (k : String) (v : Pmt) :
    dict_has_key (dict_add d k v) k = true := by
  simp [dict_add, dict_has_key]

theorem dict_has_key_filter_ne (d : PmtDict) (k k' : String) (h : k' ≠ k) :
    dict_has_key (d.filter (fun p => p.1 != k)) k' = dict_has_key d k' := by
  induction d with
  | nil => rfl
  | cons p rest ih =>
    obtain ⟨a, b⟩ := p
    by_cases hp : a = k
    · have hb : ((a, b).1 != k) = false := by simp [hp]
      have hne : ¬(k' = a) := fun hk => h (hk.trans hp)
      simp only [List.filter_cons, hb, Bool.false_eq_true, if_false, ih, dict_has_key,
        hne, decide_False, Bool.false_or]
    · have hb : ((a, b).1 != k) = true := by simp [hp]
      simp only [List.filter_cons, hb, if_true, dict_has_key, ih]

theorem dict_has_key_add_ne (d : PmtDict) (k k' : String) (v : Pmt) (h : k' ≠ k) :
    dict_has_key (dict_add d k v) k' = dict_has_key d k' := by
  simp only [dict_add, dict_has_key, h, decide_False, Bool.false_or]
  exact dict_has_key_filter_ne d k k' h

theorem dict_has_key_add_of (d : PmtDict) (k k' : String) (v : Pmt)
    (h : dict_has_key d k' = true) : dict_has_key (dict_add d k v) k' = true := by
  by_cases hk : k' = k
  · subst hk; simp
  · rw [dict_has_key_add_ne d k k' v hk]; exact h

/-! ## Field preservation through the header-mutating operations -/

/-- Unfolding of `update_header` for a key other than the rate key. -/
theorem update_header_not_rx (serSize : PmtDict → Nat) (st : SinkState)
    (k : String) (v : Pmt) (hk : ¬(k = "rx_rate")) :
    update_header serSize st k v =
      if dict_has_key st.d_header k then
        { st with d_header := dict_add st.d_header k v }
      else
        { st with d_extra := dict_add st.d_extra k v, d_extra_size := serSize (dict_add st.d_extra k v) } := by
  unfold update_header
  rw [if_neg hk]

/-- Unfolding of `update_header` for the rate key: the stored value is the
upstream rate times the relative-rate multiplier. -/
theorem update_header_rx (serSize : PmtDict → Nat) (st : SinkState) (v : Pmt) :
    update_header serSize st "rx_rate" v =
      (let st1 : SinkState := { st with d_samp_rate := pmt_to_double v }
       let value := Pmt.dbl (pmt_to_double v * st.d_relative_rate)
       if dict_has_key st1.d_header "rx_rate" then
         { st1 with d_header := dict_add st1.d_header "rx_rate" value }
       else
         { st1 with d_extra := dict_add st1.d_extra "rx_rate" value, d_extra_size := serSize (dict_add st1.d_extra "rx_rate" value) }) := by
  unfold update_header
  rw [if_pos rfl]

theorem update_header_config (serSize : PmtDict → Nat) (st : SinkState)
    (k : String) (v : Pmt) :
    (update_header serSize st k v).d_itemsize = st.d_itemsize ∧
    (update_header serSize st k v).d_max_seg_size = st.d_max_seg_size ∧
    (update_header serSize st k v).d_relative_rate = st.d_relative_rate ∧
    (update_header serSize st k v).d_total_seg_size = st.d_total_seg_size := by
  by_cases hk : k = "rx_rate"
  · subst hk
    rw [update_header_rx]
    by_cases h : dict_has_key st.d_header "rx_rate" = true <;> simp [h]
  · rw [update_header_not_rx serSize st k v hk]
    by_cases h : dict_has_key st.d_header k = true <;> simp [h]

theorem update_header_keys (serSize : PmtDict → Nat) (st : SinkState)
    (k : String) (v : Pmt) (h : HdrKeysOK st) :
    HdrKeysOK (update_header serSize st k v) := by
  obtain ⟨h1, h2⟩ := h
  by_cases hk : k = "rx_rate"
  · subst hk
    rw [update_header_rx]
    by_cases hh : dict_has_key st.d_header "rx_rate" = true <;>
      simp_all [HdrKeysOK, dict_has_key_add_of]
  · rw [update_header_not_rx serSize st k v hk]
    by_cases hh : dict_has_key st.d_header k = true <;>
      simp_all [HdrKeysOK, dict_has_key_add_of]

/-- For a key of the fixed schema other than the rate key, `update_header`
is exactly a header-dictionary update. -/
theorem update_header_std (serSize : PmtDict → Nat) (st : SinkState)
    (k : String) (v : Pmt) (hk : ¬(k = "rx_rate"))
    (h : dict_has_key st.d_header k = true) :
    update_header serSize st k v = { st with d_header := dict_add st.d_header k v } := by
  rw [update_header_not_rx serSize st k v hk, if_pos h]

/-- Any `update_header` leaves the binding of an unrelated header key alone. -/
theorem update_header_ref_ne (serSize : PmtDict → Nat) (st : SinkState)
    (k k0 : String) (v d0 : Pmt) (h : k0 ≠ k) :
    dict_ref (update_header serSize st k v).d_header k0 d0
      = dict_ref st.d_header k0 d0 := by
  by_cases hk : k = "rx_rate"
  · subst hk
    rw [update_header_rx]
    by_cases hh : dict_has_key st.d_header "rx_rate" = true <;>
      simp_all [dict_ref_add_ne]
  · rw [update_header_not_rx serSize st k v hk]
    by_cases hh : dict_has_key st.d_header k = true <;>
      simp_all [dict_ref_add_ne]

theorem update_rx_time_config (st : SinkState) :
    (update_rx_time st).d_itemsize = st.d_itemsize ∧
    (update_rx_time st).d_max_seg_size = st.d_max_seg_size ∧
    (update_rx_time st).d_relative_rate = st.d_relative_rate ∧
    (update_rx_time st).d_total_seg_size = st.d_total_seg_size ∧
    (update_rx_time st).d_extra = st.d_extra ∧
    (update_rx_time st).d_extra_size = st.d_extra_size := by
  unfold update_rx_time
  simp

theorem update_rx_time_keys (st : SinkState) (h : HdrKeysOK st) :
    HdrKeysOK (update_rx_time st) := by
  obtain ⟨h1, h2⟩ := h
  unfold update_rx_time HdrKeysOK
  refine ⟨?_, ?_⟩ <;> simp [dict_has_key_add_of, h1, h2]

theorem update_rx_time_ref_ne (st : SinkState) (k0 : String) (d0 : Pmt)
    (h : k0 ≠ "rx_time") :
    dict_ref (update_rx_time st).d_header k0 d0 = dict_ref st.d_header k0 d0 := by
  unfold update_rx_time
  simp [dict_ref_add_ne _ _ _ _ _ h]

/-! ## The finalize / fresh-header operations on well-keyed states -/

theorem update_last_header_state_eq (serSize : PmtDict → Nat) (st : SinkState)
    (h : HdrKeysOK st) :
    update_last_header_state serSize st =
      { st with d_header := dict_add (dict_add st.d_header "bytes" (.uint64 (st.d_itemsize * st.d_total_seg_size))) "strt" (.uint64 (METADATA_HEADER_SIZE + st.d_extra_size)) } := by
  obtain ⟨h1, h2⟩ := h
  simp only [update_last_header_state]
  rw [update_header_std _ _ _ _ (by decide) h1]
  rw [update_header_std _ _ _ _ (by decide) (dict_has_key_add_of _ _ _ _ h2)]

theorem write_and_update_state_eq (serSize : PmtDict → Nat) (st : SinkState)
    (h : HdrKeysOK st) :
    write_and_update_state serSize st =
      { st with d_header := dict_add (dict_add st.d_header "bytes" (.uint64 0)) "strt" (.uint64 (METADATA_HEADER_SIZE + st.d_extra_size)) } := by
  obtain ⟨h1, h2⟩ := h
  simp only [write_and_update_state]
  rw [update_header_std _ _ _ _ (by decide) h1]
  rw [update_header_std _ _ _ _ (by decide) (dict_has_key_add_of _ _ _ _ h2)]

theorem update_last_header_state_bytes (serSize : PmtDict → Nat) (st : SinkState)
    (h : HdrKeysOK st) :
    dict_ref (update_last_header_state serSize st).d_header "bytes" Pmt.nil
      = .uint64 (st.d_itemsize * st.d_total_seg_size) := by
  rw [update_last_header_state_eq serSize st h]
  rw [show ({ st with d_header := dict_add (dict_add st.d_header "bytes" (.uint64 (st.d_itemsize * st.d_total_seg_size))) "strt" (.uint64 (METADATA_HEADER_SIZE + st.d_extra_size)) } : SinkState).d_header = dict_add (dict_add st.d_header "bytes" (.uint64 (st.d_itemsize * st.d_total_seg_size))) "strt" (.uint64 (METADATA_HEADER_SIZE + st.d_extra_size)) from rfl]
  rw [dict_ref_add_ne _ _ _ _ _ (by decide)]
  exact dict_ref_add_self _ _ _ _

theorem write_and_update_state_bytes (serSize : PmtDict → Nat) (st : SinkState)
    (h : HdrKeysOK st) :
    dict_ref (write_and_update_state serSize st).d_header "bytes" Pmt.nil
      = .uint64 0 := by
  rw [write_and_update_state_eq serSize st h]
  rw [show ({ st with d_header := dict_add (dict_add st.d_header "bytes" (.uint64 0)) "strt" (.uint64 (METADATA_HEADER_SIZE + st.d_extra_size)) } : SinkState).d_header = dict_add (dict_add st.d_header "bytes" (.uint64 0)) "strt" (.uint64 (METADATA_HEADER_SIZE + st.d_extra_size)) from rfl]
  rw [dict_ref_add_ne _ _ _ _ _ (by decide)]
  exact dict_ref_add_self _ _ _ _

theorem update_last_header_state_frame (serSize : PmtDict → Nat) (st : SinkState)
    (h : HdrKeysOK st) :
    (update_last_header_state serSize st).d_itemsize = st.d_itemsize ∧
    (update_last_header_state serSize st).d_max_seg_size = st.d_max_seg_size ∧
    (update_last_header_state serSize st).d_relative_rate = st.d_relative_rate ∧
    (update_last_header_state serSize st).d_total_seg_size = st.d_total_seg_size ∧
    (update_last_header_state serSize st).d_extra = st.d_extra ∧
    (update_last_header_state serSize st).d_extra_size = st.d_extra_size ∧
    (update_last_header_state serSize st).d_samp_rate = st.d_samp_rate := by
  rw [update_last_header_state_eq serSize st h]
  simp

theorem write_and_update_state_frame (serSize : PmtDict → Nat) (st : SinkState)
    (h : HdrKeysOK st) :
    (write_and_update_state serSize st).d_itemsize = st.d_itemsize ∧
    (write_and_update_state serSize st).d_max_seg_size = st.d_max_seg_size ∧
    (write_and_update_state serSize st).d_relative_rate = st.d_relative_rate ∧
    (write_and_update_state serSize st).d_total_seg_size = st.d_total_seg_size ∧
    (write_and_update_state serSize st).d_extra = st.d_extra ∧
    (write_and_update_state serSize st).d_extra_size = st.d_extra_size ∧
    (write_and_update_state serSize st).d_samp_rate = st.d_samp_rate := by
  rw [write_and_update_state_eq serSize st h]
  simp

theorem update_last_header_state_keys (serSize : PmtDict → Nat) (st : SinkState)
    (h : HdrKeysOK st) : HdrKeysOK (update_last_header_state serSize st) :=
  update_header_keys _ _ _ _ (update_header_keys _ _ _ _ h)

theorem write_and_update_state_keys (serSize : PmtDict → Nat) (st : SinkState)
    (h : HdrKeysOK st) : HdrKeysOK (write_and_update_state serSize st) :=
  update_header_keys _ _ _ _ (update_header_keys _ _ _ _ h)

/-! ## List lemmas for the header-record file model -/

theorem setLast_ne_nil (hs : List HeaderRec) (r : HeaderRec) (h : hs ≠ []) :
    setLast hs r ≠ [] := by
  match hs with
  | [] => exact absurd rfl h
  | [x] => simp [setLast]
  | x :: y :: t => simp [setLast]

theorem getLastD_setLast : ∀ (hs : List HeaderRec) (r d : HeaderRec), hs ≠ [] →
    (setLast hs r).getLastD d = r
  | [], _, _, h => absurd rfl h
  | [_], _, _, _ => rfl
  | x :: y :: t, r, d, _ => by
    rw [show setLast (x :: y :: t) r = x :: setLast (y :: t) r from rfl]
    rw [List.getLastD_cons]
    exact getLastD_setLast (y :: t) r x (by simp)

theorem sumBytes_setLast (hs : List HeaderRec) (r : HeaderRec) (h : hs ≠ []) :
    sumBytes (setLast hs r) + lastBytes hs = sumBytes hs + bytesOf r := by
  induction hs with
  | nil => exact absurd rfl h
  | cons x t ih =>
    match t with
    | [] => simp [setLast, sumBytes, lastBytes]; omega
    | y :: t' =>
      rw [show setLast (x :: y :: t') r = x :: setLast (y :: t') r from rfl]
      have h1 : sumBytes (x :: setLast (y :: t') r) = bytesOf x + sumBytes (setLast (y :: t') r) := by
        simp [sumBytes]
      have h2 : sumBytes (x :: y :: t') = bytesOf x + sumBytes (y :: t') := by
        simp [sumBytes]
      have h3 : lastBytes (x :: y :: t') = lastBytes (y :: t') := by
        simp [lastBytes, List.getLastD_cons]
      rw [h1, h2, h3]
      have := ih (by simp)
      omega

theorem mem_setLast (hs : List HeaderRec) (r x : HeaderRec)
    (h : x ∈ setLast hs r) : x ∈ hs ∨ x = r := by
  induction hs with
  | nil => simp [setLast] at h
  | cons a t ih =>
    match t with
    | [] =>
      simp [setLast] at h
      right; exact h
    | y :: t' =>
      rw [show setLast (a :: y :: t') r = a :: setLast (y :: t') r from rfl] at h
      rcases List.mem_cons.mp h with h' | h'
      · left; simp [h']
      · rcases ih h' with h'' | h''
        · left; simp [h'']
        · right; exact h''

theorem dropLast_setLast (hs : List HeaderRec) (r : HeaderRec) :
    (setLast hs r).dropLast = hs.dropLast := by
  induction hs with
  | nil => rfl
  | cons a t ih =>
    match t with
    | [] => rfl
    | y :: t' =>
      rw [show setLast (a :: y :: t') r = a :: setLast (y :: t') r from rfl]
      have hne : setLast (y :: t') r ≠ [] := setLast_ne_nil _ _ (by simp)
      rw [List.dropLast_cons_of_ne_nil hne, List.dropLast_cons_of_ne_nil (by simp), ih]

theorem sumBytes_append (hs : List HeaderRec) (r : HeaderRec) :
    sumBytes (hs ++ [r]) = sumBytes hs + bytesOf r := by
  simp [sumBytes]

theorem lastBytes_append (hs : List HeaderRec) (r : HeaderRec) :
    lastBytes (hs ++ [r]) = bytesOf r := by
  induction hs with
  | nil => rfl
  | cons a t ih =>
    simp only [lastBytes, List.cons_append, List.getLastD_cons] at *
    match t with
    | [] => rfl
    | y :: t' => exact ih

/-! ## Step equations for the payload-writing loop -/

theorem writeLoop_zero (serSize : PmtDict → Nat) (oracle : Nat → Bool)
    (limit : Nat) (b : Bool) (w : WState) :
    writeLoop serSize oracle limit b 0 w = w := rfl

theorem writeLoop_succ_exit (serSize : PmtDict → Nat) (oracle : Nat → Bool)
    (limit : Nat) (b : Bool) (fuel : Nat) (w : WState)
    (h : ¬ w.nwritten < limit) :
    writeLoop serSize oracle limit b (fuel + 1) w = w := by
  simp only [writeLoop]
  rw [if_neg h]

theorem writeLoop_succ_break (serSize : PmtDict → Nat) (oracle : Nat → Bool)
    (limit : Nat) (b : Bool) (fuel : Nat) (w : WState)
    (h1 : w.nwritten < limit) (h0 : chunkCount oracle limit w = 0) :
    writeLoop serSize oracle limit b (fuel + 1) w = { w with idx := w.idx + 1 } := by
  simp only [writeLoop]
  rw [if_pos h1, if_pos h0]

theorem writeLoop_succ_boundary (serSize : PmtDict → Nat) (oracle : Nat → Bool)
    (limit : Nat) (b : Bool) (fuel : Nat) (w : WState)
    (h1 : w.nwritten < limit) (h0 : ¬ chunkCount oracle limit w = 0)
    (hb : (chunkAdvance oracle limit w).sink.d_total_seg_size
        = (chunkAdvance oracle limit w).sink.d_max_seg_size ∧
      (b → (chunkAdvance oracle limit w).nwritten < limit)) :
    writeLoop serSize oracle limit b (fuel + 1) w
      = writeLoop serSize oracle limit b fuel
          (chunkBoundary serSize (chunkAdvance oracle limit w)) := by
  simp only [writeLoop]
  rw [if_pos h1, if_neg h0, if_pos hb]

theorem writeLoop_succ_cont (serSize : PmtDict → Nat) (oracle : Nat → Bool)
    (limit : Nat) (b : Bool) (fuel : Nat) (w : WState)
    (h1 : w.nwritten < limit) (h0 : ¬ chunkCount oracle limit w = 0)
    (hb : ¬ ((chunkAdvance oracle limit w).sink.d_total_seg_size
        = (chunkAdvance oracle limit w).sink.d_max_seg_size ∧
      (b → (chunkAdvance oracle limit w).nwritten < limit))) :
    writeLoop serSize oracle limit b (fuel + 1) w
      = writeLoop serSize oracle limit b fuel (chunkAdvance oracle limit w) := by
  simp only [writeLoop]
  rw [if_pos h1, if_neg h0, if_neg hb]

/-! ## Claim C1 machinery: byte-count bookkeeping with no annotations -/

theorem chunkAdvance_invC1 (oracle : Nat → Bool) (limit isz base : Nat)
    (w : WState) (h : InvC1 isz base w) :
    InvC1 isz base (chunkAdvance oracle limit w) := by
  obtain ⟨hi, hk, hne, hl, hs⟩ := h
  refine ⟨hi, hk, hne, hl, ?_⟩
  show sumBytes w.headers
      + isz * (w.sink.d_total_seg_size + chunkCount oracle limit w)
    = isz * (base + (w.nwritten + chunkCount oracle limit w))
  calc sumBytes w.headers
      + isz * (w.sink.d_total_seg_size + chunkCount oracle limit w)
      = (sumBytes w.headers + isz * w.sink.d_total_seg_size)
          + isz * chunkCount oracle limit w := by ring
    _ = isz * (base + w.nwritten) + isz * chunkCount oracle limit w := by rw [hs]
    _ = isz * (base + (w.nwritten + chunkCount oracle limit w)) := by ring

theorem chunkBoundary_invC1 (serSize : PmtDict → Nat) (isz base : Nat)
    (w : WState) (h : InvC1 isz base w) :
    InvC1 isz base (chunkBoundary serSize w) := by
  obtain ⟨hi, hk, hne, hl, hs⟩ := h
  have hk1 : HdrKeysOK (update_last_header_state serSize w.sink) :=
    update_last_header_state_keys serSize w.sink hk
  have hf1 := update_last_header_state_frame serSize w.sink hk
  have hk2 : HdrKeysOK (update_rx_time (update_last_header_state serSize w.sink)) :=
    update_rx_time_keys _ hk1
  have hf2 := update_rx_time_config (update_last_header_state serSize w.sink)
  have hk3 : HdrKeysOK (write_and_update_state serSize
      (update_rx_time (update_last_header_state serSize w.sink))) :=
    write_and_update_state_keys _ _ hk2
  have hf3 := write_and_update_state_frame serSize _ hk2
  have hb1 : bytesOf ((update_last_header_state serSize w.sink).d_header,
      (update_last_header_state serSize w.sink).d_extra)
      = isz * w.sink.d_total_seg_size := by
    show pmt_to_uint64 (dict_ref (update_last_header_state serSize w.sink).d_header
      "bytes" Pmt.nil) = isz * w.sink.d_total_seg_size
    rw [update_last_header_state_bytes serSize w.sink hk]
    simp [pmt_to_uint64, hi]
  have hb3 : bytesOf ((write_and_update_state serSize
      (update_rx_time (update_last_header_state serSize w.sink))).d_header,
      (write_and_update_state serSize
      (update_rx_time (update_last_header_state serSize w.sink))).d_extra) = 0 := by
    show pmt_to_uint64 (dict_ref (write_and_update_state serSize
      (update_rx_time (update_last_header_state serSize w.sink))).d_header
      "bytes" Pmt.nil) = 0
    rw [write_and_update_state_bytes serSize _ hk2]
    simp [pmt_to_uint64]
  simp only [chunkBoundary, patchLast, appendFresh]
  refine ⟨?_, ?_, ?_, ?_, ?_⟩
  · show (write_and_update_state serSize
        (update_rx_time (update_last_header_state serSize w.sink))).d_itemsize = isz
    rw [hf3.1, hf2.1, hf1.1, hi]
  · exact hk3
  · show setLast w.headers _ ++ _ ≠ []
    simp
  · show lastBytes (setLast w.headers _ ++ [_]) = 0
    rw [lastBytes_append]
    exact hb3
  · show sumBytes (setLast w.headers _ ++ [_]) + isz * 0 = isz * (base + w.nwritten)
    rw [sumBytes_append, hb3]
    have hset := sumBytes_setLast w.headers
      ((update_last_header_state serSize w.sink).d_header,
       (update_last_header_state serSize w.sink).d_extra) hne
    rw [hl, hb1] at hset
    calc sumBytes (setLast w.headers
          ((update_last_header_state serSize w.sink).d_header,
           (update_last_header_state serSize w.sink).d_extra)) + 0 + isz * 0
        = sumBytes (setLast w.headers
          ((update_last_header_state serSize w.sink).d_header,
           (update_last_header_state serSize w.sink).d_extra)) + 0 := by ring
      _ = sumBytes w.headers + isz * w.sink.d_total_seg_size := by omega
      _ = isz * (base + w.nwritten) := hs

theorem writeLoop_invC1 (serSize : PmtDict → Nat) (oracle : Nat → Bool)
    (limit : Nat) (b : Bool) (isz base : Nat) :
    ∀ (fuel : Nat) (w : WState), InvC1 isz base w →
      InvC1 isz base (writeLoop serSize oracle limit b fuel w) := by
  intro fuel
  induction fuel with
  | zero => intro w h; exact h
  | succ n ih =>
    intro w h
    by_cases h1 : w.nwritten < limit
    · by_cases h0 : chunkCount oracle limit w = 0
      · rw [writeLoop_succ_break serSize oracle limit b n w h1 h0]
        exact h
      · by_cases hb : (chunkAdvance oracle limit w).sink.d_total_seg_size
            = (chunkAdvance oracle limit w).sink.d_max_seg_size ∧
          (b → (chunkAdvance oracle limit w).nwritten < limit)
        · rw [writeLoop_succ_boundary serSize oracle limit b n w h1 h0 hb]
          exact ih _ (chunkBoundary_invC1 serSize isz base _
            (chunkAdvance_invC1 oracle limit isz base w h))
        · rw [writeLoop_succ_cont serSize oracle limit b n w h1 h0 hb]
          exact ih _ (chunkAdvance_invC1 oracle limit isz base w h)
    · rw [writeLoop_succ_exit serSize oracle limit b n w h1]
      exact h

/-- Byte count of the record rewritten in place by `update_last_header`. -/
theorem patched_rec_bytes (serSize : PmtDict → Nat) (st : SinkState)
    (hk : HdrKeysOK st) :
    bytesOf ((update_last_header_state serSize st).d_header,
        (update_last_header_state serSize st).d_extra)
      = st.d_itemsize * st.d_total_seg_size := by
  show pmt_to_uint64 (dict_ref (update_last_header_state serSize st).d_header
    "bytes" Pmt.nil) = st.d_itemsize * st.d_total_seg_size
  rw [update_last_header_state_bytes serSize st hk]
  rfl

/-- Byte count of the fresh record appended by `write_and_update`. -/
theorem fresh_rec_bytes (serSize : PmtDict → Nat) (st : SinkState)
    (hk : HdrKeysOK st) :
    bytesOf ((write_and_update_state serSize st).d_header,
        (write_and_update_state serSize st).d_extra) = 0 := by
  show pmt_to_uint64 (dict_ref (write_and_update_state serSize st).d_header
    "bytes" Pmt.nil) = 0
  rw [write_and_update_state_bytes serSize st hk]
  rfl

theorem work_true_no_tags (serSize : PmtDict → Nat) (oracle : Nat → Bool)
    (m : Model) (n : Nat) :
    work serSize oracle true m n [] =
      (let w2 := writeLoop serSize oracle n false n { nwritten := 0, idx := 0, sink := m.sink, headers := m.headers }
       ({ sink := w2.sink, headers := w2.headers }, w2.nwritten)) := by
  unfold work
  rw [if_pos rfl]
  rfl

theorem work_no_tags_invM (serSize : PmtDict → Nat) (isz tw : Nat) (m : Model)
    (n : Nat) (h : InvM isz tw m) :
    InvM isz (tw + (work serSize (fun _ => true) true m n []).2)
      (work serSize (fun _ => true) true m n []).1 := by
  rw [work_true_no_tags]
  have h0 : InvC1 isz tw { nwritten := 0, idx := 0, sink := m.sink, headers := m.headers : WState } := by
    obtain ⟨a, b, c, d, e⟩ := h
    exact ⟨a, b, c, d, by simpa using e⟩
  have h2 := writeLoop_invC1 serSize (fun _ => true) n false isz tw n _ h0
  obtain ⟨a, b, c, d, e⟩ := h2
  exact ⟨a, b, c, d, e⟩

theorem runCalls_invM (serSize : PmtDict → Nat) (isz : Nat) :
    ∀ (ns : List Nat) (m : Model) (tw : Nat), InvM isz tw m →
      InvM isz (tw + (runCalls serSize m ns).2) (runCalls serSize m ns).1 := by
  intro ns
  induction ns with
  | nil => intro m tw h; simpa using h
  | cons n ns ih =>
    intro m tw h
    have h1 := work_no_tags_invM serSize isz tw m n h
    have h2 := ih _ _ h1
    show InvM isz (tw + ((work serSize (fun _ => true) true m n []).2
        + (runCalls serSize (work serSize (fun _ => true) true m n []).1 ns).2))
      (runCalls serSize (work serSize (fun _ => true) true m n []).1 ns).1
    rw [← Nat.add_assoc]
    exact h2

theorem initModel_invM (serSize : PmtDict → Nat) (isz : Nat) (samp rel : ℚ)
    (typ : Int) (cplx : Bool) (maxseg : Nat) (extra0 : PmtDict) :
    InvM isz 0 (initModel serSize isz samp rel typ cplx maxseg extra0) := by
  refine ⟨rfl, ⟨?_, ?_⟩, by simp [initModel], ?_, ?_⟩
  · show dict_has_key (initModel serSize isz samp rel typ cplx maxseg extra0).sink.d_header "bytes" = true
    simp only [initModel]
    exact dict_has_key_add_self _ _ _
  · show dict_has_key (initModel serSize isz samp rel typ cplx maxseg extra0).sink.d_header "strt" = true
    simp only [initModel]
    rw [dict_has_key_add_ne _ _ _ _ (by decide)]
    exact dict_has_key_add_self _ _ _
  · show lastBytes (initModel serSize isz samp rel typ cplx maxseg extra0).headers = 0
    simp only [initModel]
    simp [lastBytes, bytesOf, pmt_to_uint64]
  · show sumBytes (initModel serSize isz samp rel typ cplx maxseg extra0).headers + isz * (initModel serSize isz samp rel typ cplx maxseg extra0).sink.d_total_seg_size = isz * 0
    simp only [initModel]
    simp [sumBytes, bytesOf, pmt_to_uint64]

theorem close_model_sum (serSize : PmtDict → Nat) (isz tw : Nat) (m : Model)
    (h : InvM isz tw m) :
    sumBytes (close_model serSize m).headers = isz * tw := by
  obtain ⟨hi, hk, hne, hl, hs⟩ := h
  show sumBytes (setLast m.headers ((update_last_header_state serSize m.sink).d_header, (update_last_header_state serSize m.sink).d_extra)) = isz * tw
  have hset := sumBytes_setLast m.headers
    ((update_last_header_state serSize m.sink).d_header,
     (update_last_header_state serSize m.sink).d_extra) hne
  have hb := patched_rec_bytes serSize m.sink hk
  rw [hi] at hb
  rw [hl, hb] at hset
  omega

/-! ## Claim C2 machinery: the segment size cap -/

theorem bytesBounded_setLast (isz max : Nat) (hs : List HeaderRec) (r : HeaderRec)
    (h : BytesBounded isz max hs) (hr : bytesOf r ≤ isz * max) :
    BytesBounded isz max (setLast hs r) := by
  intro x hx
  rcases mem_setLast hs r x hx with h' | h'
  · exact h x h'
  · rw [h']; exact hr

theorem bytesBounded_append (isz max : Nat) (hs : List HeaderRec) (r : HeaderRec)
    (h : BytesBounded isz max hs) (hr : bytesOf r ≤ isz * max) :
    BytesBounded isz max (hs ++ [r]) := by
  intro x hx
  rcases List.mem_append.mp hx with h' | h'
  · exact h x h'
  · rw [List.mem_singleton.mp h']; exact hr

/-- A generic preservation principle for the payload-writing loop. -/
theorem writeLoop_preserves (serSize : PmtDict → Nat) (oracle : Nat → Bool)
    (limit : Nat) (b : Bool) (P : WState → Prop)
    (hA : ∀ w, P w → P (chunkAdvance oracle limit w))
    (hB : ∀ w, P w → P (chunkBoundary serSize w))
    (hI : ∀ w, P w → P { w with idx := w.idx + 1 }) :
    ∀ (fuel : Nat) (w : WState), P w → P (writeLoop serSize oracle limit b fuel w) := by
  intro fuel
  induction fuel with
  | zero => intro w h; exact h
  | succ n ih =>
    intro w h
    by_cases h1 : w.nwritten < limit
    · by_cases h0 : chunkCount oracle limit w = 0
      · rw [writeLoop_succ_break serSize oracle limit b n w h1 h0]
        exact hI w h
      · by_cases hb : (chunkAdvance oracle limit w).sink.d_total_seg_size
            = (chunkAdvance oracle limit w).sink.d_max_seg_size ∧
          (b → (chunkAdvance oracle limit w).nwritten < limit)
        · rw [writeLoop_succ_boundary serSize oracle limit b n w h1 h0 hb]
          exact ih _ (hB _ (hA w h))
        · rw [writeLoop_succ_cont serSize oracle limit b n w h1 h0 hb]
          exact ih _ (hA w h)
    · rw [writeLoop_succ_exit serSize oracle limit b n w h1]
      exact h

theorem chunkAdvance_invC2 (oracle : Nat → Bool) (limit isz max : Nat)
    (w : WState) (h : InvC2 isz max w) :
    InvC2 isz max (chunkAdvance oracle limit w) := by
  obtain ⟨hi, hm, hk, ht, hb⟩ := h
  refine ⟨hi, hm, hk, ?_, hb⟩
  show w.sink.d_total_seg_size + chunkCount oracle limit w ≤ max
  have hc : chunkCount oracle limit w ≤ w.sink.d_max_seg_size - w.sink.d_total_seg_size := by
    unfold chunkCount chunkTowrite
    by_cases ho : oracle w.idx = true
    · rw [if_pos ho]; exact min_le_left _ _
    · rw [if_neg ho]; exact Nat.zero_le _
  omega

theorem chunkBoundary_invC2 (serSize : PmtDict → Nat) (isz max : Nat)
    (w : WState) (h : InvC2 isz max w) :
    InvC2 isz max (chunkBoundary serSize w) := by
  obtain ⟨hi, hm, hk, ht, hb⟩ := h
  have hk1 := update_last_header_state_keys serSize w.sink hk
  have hf1 := update_last_header_state_frame serSize w.sink hk
  have hk2 := update_rx_time_keys _ hk1
  have hf2 := update_rx_time_config (update_last_header_state serSize w.sink)
  have hk3 := write_and_update_state_keys serSize _ hk2
  have hf3 := write_and_update_state_frame serSize _ hk2
  have hb1 : bytesOf ((update_last_header_state serSize w.sink).d_header,
      (update_last_header_state serSize w.sink).d_extra) ≤ isz * max := by
    rw [patched_rec_bytes serSize w.sink hk, hi]
    exact Nat.mul_le_mul_left isz ht
  have hb3 : bytesOf ((write_and_update_state serSize
      (update_rx_time (update_last_header_state serSize w.sink))).d_header,
      (write_and_update_state serSize
      (update_rx_time (update_last_header_state serSize w.sink))).d_extra) = 0 :=
    fresh_rec_bytes serSize _ hk2
  simp only [chunkBoundary, patchLast, appendFresh]
  refine ⟨?_, ?_, hk3, ?_, ?_⟩
  · show (write_and_update_state serSize
        (update_rx_time (update_last_header_state serSize w.sink))).d_itemsize = isz
    rw [hf3.1, hf2.1, hf1.1, hi]
  · show (write_and_update_state serSize
        (update_rx_time (update_last_header_state serSize w.sink))).d_max_seg_size = max
    rw [hf3.2.1, hf2.2.1, hf1.2.1, hm]
  · exact Nat.zero_le _
  · show BytesBounded isz max (setLast w.headers _ ++ [_])
    refine bytesBounded_append isz max _ _ (bytesBounded_setLast isz max _ _ hb hb1) ?_
    rw [hb3]
    exact Nat.zero_le _

/-- Branch equation for `handleTag` with payload in the open segment. -/
theorem handleTag_pos (serSize : PmtDict → Nat) (tag : GrTag) (w : WState)
    (h : 0 < w.sink.d_total_seg_size) :
    handleTag serSize tag w =
      (let st1 := update_last_header_state serSize w.sink
       let st2 := update_header serSize st1 tag.key tag.value
       let st3 := write_and_update_state serSize st2
       { w with sink := { st3 with d_total_seg_size := 0 }, headers := setLast w.headers (st1.d_header, st1.d_extra) ++ [(st3.d_header, st3.d_extra)] }) := by
  unfold handleTag patchLast appendFresh
  rw [if_pos h]

/-- Branch equation for `handleTag` at a still-empty segment. -/
theorem handleTag_zero (serSize : PmtDict → Nat) (tag : GrTag) (w : WState)
    (h : ¬ 0 < w.sink.d_total_seg_size) :
    handleTag serSize tag w =
      (let st1 := update_header serSize w.sink tag.key tag.value
       let st2 := update_last_header_state serSize st1
       { w with sink := st2, headers := setLast w.headers (st2.d_header, st2.d_extra) }) := by
  unfold handleTag patchLast
  rw [if_neg h]

theorem handleTag_invC2 (serSize : PmtDict → Nat) (tag : GrTag) (isz max : Nat)
    (w : WState) (h : InvC2 isz max w) :
    InvC2 isz max (handleTag serSize tag w) := by
  obtain ⟨hi, hm, hk, ht, hb⟩ := h
  by_cases hz : 0 < w.sink.d_total_seg_size
  · rw [handleTag_pos serSize tag w hz]
    have hk1 := update_last_header_state_keys serSize w.sink hk
    have hf1 := update_last_header_state_frame serSize w.sink hk
    have hk2 := update_header_keys serSize _ tag.key tag.value hk1
    have hf2 := update_header_config serSize (update_last_header_state serSize w.sink)
      tag.key tag.value
    have hk3 := write_and_update_state_keys serSize _ hk2
    have hf3 := write_and_update_state_frame serSize _ hk2
    have hb1 : bytesOf ((update_last_header_state serSize w.sink).d_header,
        (update_last_header_state serSize w.sink).d_extra) ≤ isz * max := by
      rw [patched_rec_bytes serSize w.sink hk, hi]
      exact Nat.mul_le_mul_left isz ht
    have hb3 := fresh_rec_bytes serSize
      (update_header serSize (update_last_header_state serSize w.sink) tag.key tag.value) hk2
    refine ⟨?_, ?_, hk3, Nat.zero_le _, ?_⟩
    · show (write_and_update_state serSize _).d_itemsize = isz
      rw [hf3.1, hf2.1, hf1.1, hi]
    · show (write_and_update_state serSize _).d_max_seg_size = max
      rw [hf3.2.1, hf2.2.1, hf1.2.1, hm]
    · show BytesBounded isz max (setLast w.headers _ ++ [_])
      refine bytesBounded_append isz max _ _ (bytesBounded_setLast isz max _ _ hb hb1) ?_
      rw [hb3]
      exact Nat.zero_le _
  · rw [handleTag_zero serSize tag w hz]
    have hk1 := update_header_keys serSize w.sink tag.key tag.value hk
    have hf1 := update_header_config serSize w.sink tag.key tag.value
    have hk2 := update_last_header_state_keys serSize _ hk1
    have hf2 := update_last_header_state_frame serSize _ hk1
    have hb2 : bytesOf ((update_last_header_state serSize
        (update_header serSize w.sink tag.key tag.value)).d_header,
        (update_last_header_state serSize
        (update_header serSize w.sink tag.key tag.value)).d_extra) ≤ isz * max := by
      rw [patched_rec_bytes serSize _ hk1, hf1.1, hf1.2.2.2, hi]
      exact Nat.mul_le_mul_left isz ht
    refine ⟨?_, ?_, hk2, ?_, ?_⟩
    · show (update_last_header_state serSize _).d_itemsize = isz
      rw [hf2.1, hf1.1, hi]
    · show (update_last_header_state serSize _).d_max_seg_size = max
      rw [hf2.2.1, hf1.2.1, hm]
    · show (update_last_header_state serSize _).d_total_seg_size ≤ max
      rw [hf2.2.2.2.1, hf1.2.2.2]
      exact ht
    · exact bytesBounded_setLast isz max _ _ hb hb2

theorem work_true_eq (serSize : PmtDict → Nat) (oracle : Nat → Bool)
    (m : Model) (n : Nat) (tags : List GrTag) :
    work serSize oracle true m n tags =
      (let w2 := writeLoop serSize oracle n false n (tags.foldl (fun w tag => handleTag serSize tag (writeLoop serSize oracle tag.offset true tag.offset w)) { nwritten := 0, idx := 0, sink := m.sink, headers := m.headers })
       ({ sink := w2.sink, headers := w2.headers }, w2.nwritten)) := by
  unfold work
  rw [if_pos rfl]

theorem invC2_idx (isz max : Nat) (w : WState) (h : InvC2 isz max w) :
    InvC2 isz max { w with idx := w.idx + 1 } := h

theorem work_invMC2 (serSize : PmtDict → Nat) (oracle : Nat → Bool)
    (isz max : Nat) (m : Model) (n : Nat) (tags : List GrTag)
    (h : InvMC2 isz max m) :
    InvMC2 isz max (work serSize oracle true m n tags).1 := by
  rw [work_true_eq]
  have h0 : InvC2 isz max { nwritten := 0, idx := 0, sink := m.sink, headers := m.headers : WState } := by
    obtain ⟨a, b, c, d, e⟩ := h
    exact ⟨a, b, c, d, e⟩
  have hstep : ∀ (ts : List GrTag) (w : WState), InvC2 isz max w →
      InvC2 isz max (ts.foldl (fun w tag => handleTag serSize tag
        (writeLoop serSize oracle tag.offset true tag.offset w)) w) := by
    intro ts
    induction ts with
    | nil => intro w hw; exact hw
    | cons t ts ih =>
      intro w hw
      exact ih _ (handleTag_invC2 serSize t isz max _
        (writeLoop_preserves serSize oracle t.offset true (InvC2 isz max)
          (fun w' => chunkAdvance_invC2 oracle t.offset isz max w')
          (fun w' => chunkBoundary_invC2 serSize isz max w')
          (fun w' => invC2_idx isz max w') t.offset w hw))
  have h1 := hstep tags _ h0
  have h2 := writeLoop_preserves serSize oracle n false (InvC2 isz max)
    (fun w' => chunkAdvance_invC2 oracle n isz max w')
    (fun w' => chunkBoundary_invC2 serSize isz max w')
    (fun w' => invC2_idx isz max w') n _ h1
  obtain ⟨a, b, c, d, e⟩ := h2
  exact ⟨a, b, c, d, e⟩

theorem runCallsG_invMC2 (serSize : PmtDict → Nat) (isz max : Nat) :
    ∀ (cs : List CallSpec) (m : Model), InvMC2 isz max m →
      InvMC2 isz max (runCallsG serSize m cs) := by
  intro cs
  induction cs with
  | nil => intro m h; exact h
  | cons c cs ih =>
    intro m h
    exact ih _ (work_invMC2 serSize c.oracle isz max m c.n c.tags h)

theorem initModel_invMC2 (serSize : PmtDict → Nat) (isz : Nat) (samp rel : ℚ)
    (typ : Int) (cplx : Bool) (maxseg : Nat) (extra0 : PmtDict) :
    InvMC2 isz maxseg (initModel serSize isz samp rel typ cplx maxseg extra0) := by
  obtain ⟨a, b, c, d, e⟩ := initModel_invM serSize isz samp rel typ cplx maxseg extra0
  refine ⟨a, rfl, b, Nat.zero_le _, ?_⟩
  intro x hx
  rcases List.mem_singleton.mp hx with rfl
  have : bytesOf ((initModel serSize isz samp rel typ cplx maxseg extra0).headers.getLastD ([], [])) = 0 := d
  simpa using this.le.trans (Nat.zero_le _)

theorem close_model_invMC2 (serSize : PmtDict → Nat) (isz max : Nat) (m : Model)
    (h : InvMC2 isz max m) :
    BytesBounded isz max (close_model serSize m).headers ∧
      (close_model serSize m).sink.d_total_seg_size ≤ max := by
  obtain ⟨hi, hm, hk, ht, hb⟩ := h
  have hb1 : bytesOf ((update_last_header_state serSize m.sink).d_header,
      (update_last_header_state serSize m.sink).d_extra) ≤ isz * max := by
    rw [patched_rec_bytes serSize m.sink hk, hi]
    exact Nat.mul_le_mul_left isz ht
  constructor
  · show BytesBounded isz max (setLast m.headers _)
    exact bytesBounded_setLast isz max _ _ hb hb1
  · show (update_last_header_state serSize m.sink).d_total_seg_size ≤ max
    rw [(update_last_header_state_frame serSize m.sink hk).2.2.2.1]
    exact ht

/-! ## Helper lemmas for the annotation / timestamp / cursor claims -/

theorem setLast_length : ∀ (hs : List HeaderRec) (r : HeaderRec),
    (setLast hs r).length = hs.length
  | [], _ => rfl
  | [_], _ => rfl
  | x :: y :: t, r => by
    rw [show setLast (x :: y :: t) r = x :: setLast (y :: t) r from rfl]
    simp only [List.length_cons, setLast_length (y :: t) r]

theorem update_last_header_state_ref_ne (serSize : PmtDict → Nat) (st : SinkState)
    (k0 : String) (d0 : Pmt) (h1 : k0 ≠ "bytes") (h2 : k0 ≠ "strt") :
    dict_ref (update_last_header_state serSize st).d_header k0 d0
      = dict_ref st.d_header k0 d0 := by
  simp only [update_last_header_state]
  rw [update_header_ref_ne _ _ _ _ _ _ h2, update_header_ref_ne _ _ _ _ _ _ h1]

theorem write_and_update_state_ref_ne (serSize : PmtDict → Nat) (st : SinkState)
    (k0 : String) (d0 : Pmt) (h1 : k0 ≠ "bytes") (h2 : k0 ≠ "strt") :
    dict_ref (write_and_update_state serSize st).d_header k0 d0
      = dict_ref st.d_header k0 d0 := by
  simp only [write_and_update_state]
  rw [update_header_ref_ne _ _ _ _ _ _ h2, update_header_ref_ne _ _ _ _ _ _ h1]

/-- Processing an annotation never touches the stored timestamp (unless the
annotation's own key is the timestamp key). -/
theorem handleTag_rx_time (serSize : PmtDict → Nat) (tag : GrTag) (w : WState)
    (hk : tag.key ≠ "rx_time") :
    dict_ref (handleTag serSize tag w).sink.d_header "rx_time" Pmt.nil
      = dict_ref w.sink.d_header "rx_time" Pmt.nil := by
  have hne : ("rx_time" : String) ≠ tag.key := fun e => hk e.symm
  by_cases hz : 0 < w.sink.d_total_seg_size
  · rw [handleTag_pos serSize tag w hz]
    show dict_ref (write_and_update_state serSize (update_header serSize
      (update_last_header_state serSize w.sink) tag.key tag.value)).d_header
      "rx_time" Pmt.nil = _
    rw [write_and_update_state_ref_ne _ _ _ _ (by decide) (by decide)]
    rw [update_header_ref_ne _ _ _ _ _ _ hne]
    rw [update_last_header_state_ref_ne _ _ _ _ (by decide) (by decide)]
  · rw [handleTag_zero serSize tag w hz]
    show dict_ref (update_last_header_state serSize (update_header serSize
      w.sink tag.key tag.value)).d_header "rx_time" Pmt.nil = _
    rw [update_last_header_state_ref_ne _ _ _ _ (by decide) (by decide)]
    rw [update_header_ref_ne _ _ _ _ _ _ hne]

/-- The exact timestamp stored by `update_rx_time` when the current timestamp
is well typed. -/
theorem update_rx_time_result (st : SinkState) (s : Nat) (f : ℚ)
    (htime : dict_ref st.d_header "rx_time" Pmt.nil = .tuple2 (.uint64 s) (.dbl f)) :
    dict_ref (update_rx_time st).d_header "rx_time" Pmt.nil
      = .tuple2 (.uint64 (s + (⌊f + (st.d_total_seg_size : ℚ) / (st.d_samp_rate * st.d_relative_rate)⌋).toNat)) (.dbl (f + (st.d_total_seg_size : ℚ) / (st.d_samp_rate * st.d_relative_rate) - ((⌊f + (st.d_total_seg_size : ℚ) / (st.d_samp_rate * st.d_relative_rate)⌋).toNat : ℚ))) := by
  simp only [update_rx_time, htime, double_to_uint64]
  rw [dict_ref_add_self]
  simp [pmt_tuple_ref, pmt_to_uint64, pmt_to_double]

/-- Behaviour of `update_header` on the rate key, when the rate key is (as always) part of
the header schema: store the upstream rate times the relative multiplier and
remember the upstream rate as the new `d_samp_rate`. -/
theorem update_header_rx_std (serSize : PmtDict → Nat) (st : SinkState) (r : ℚ)
    (hkey : dict_has_key st.d_header "rx_rate" = true) :
    update_header serSize st "rx_rate" (.dbl r)
      = { st with d_samp_rate := r, d_header := dict_add st.d_header "rx_rate" (.dbl (r * st.d_relative_rate)) } := by
  rw [update_header_rx]
  show (if dict_has_key st.d_header "rx_rate" = true then _ else _) = _
  rw [if_pos hkey]
  rfl

/-! ## The claims -/

/-- C1: for every sequence of `work` calls with no annotations in which every
`fwrite` succeeds, after the final header is patched at close the sum of the
`segment_byte_count` (`bytes`) fields across all headers emitted to the file
equals `item_size` times the total number of items written. -/
theorem no_annotation_byte_sum (serSize : PmtDict → Nat) (isz : Nat)
    (samp rel : ℚ) (typ : Int) (cplx : Bool) (maxseg : Nat) (extra0 : PmtDict)
    (calls : List Nat) :
    sumBytes (close_model serSize (runCalls serSize (initModel serSize isz samp rel typ cplx maxseg extra0) calls).1).headers
      = isz * (runCalls serSize (initModel serSize isz samp rel typ cplx maxseg extra0) calls).2 := by
  have h0 := initModel_invM serSize isz samp rel typ cplx maxseg extra0
  have h1 := runCalls_invM serSize isz calls _ 0 h0
  rw [Nat.zero_add] at h1
  exact close_model_sum serSize isz _ _ h1

/-- C2: over every sequence of `work` calls and annotations, no header ever
finalized to the output carries a `segment_byte_count` exceeding
`item_size * max_segment_items`, and `d_total_seg_size` never exceeds
`d_max_seg_size`. -/
theorem segment_cap_invariant (serSize : PmtDict → Nat) (isz : Nat)
    (samp rel : ℚ) (typ : Int) (cplx : Bool) (maxseg : Nat) (extra0 : PmtDict)
    (runs : List CallSpec) :
    (∀ h ∈ (close_model serSize (runCallsG serSize (initModel serSize isz samp rel typ cplx maxseg extra0) runs)).headers, bytesOf h ≤ isz * maxseg) ∧
    (runCallsG serSize (initModel serSize isz samp rel typ cplx maxseg extra0) runs).sink.d_total_seg_size ≤ maxseg := by
  have h0 := initModel_invMC2 serSize isz samp rel typ cplx maxseg extra0
  have h1 := runCallsG_invMC2 serSize isz maxseg runs _ h0
  exact ⟨(close_model_invMC2 serSize isz maxseg _ h1).1, h1.2.2.2.1⟩

/-- Witness for C2: the cap holds on a concrete annotated run with cap 3. -/
theorem segment_cap_invariant_witness :
    bytesOf ((close_model serLen (runCallsG serLen fixModel fixRuns)).headers.getLastD ([], [])) ≤ 4 * 3 ∧
    (runCallsG serLen fixModel fixRuns).sink.d_total_seg_size ≤ 3 :=
  ⟨(segment_cap_invariant serLen 4 6 1 0 false 3 [] fixRuns).1 _ (by decide),
   (segment_cap_invariant serLen 4 6 1 0 false 3 [] fixRuns).2⟩

/-- C6: the size check of `write_header` refuses the write only when *both*
the serialized header length and the serialized extras length deviate
(`&&` at line 241); a header-only size deviation is not refused, contradicting
the spec's fail-loudly rule.  Evaluated at the failing input. -/
theorem write_header_check_misses_header_only_mismatch :
    write_header_throws 0 (METADATA_HEADER_SIZE + 1) 0 = false := by decide

/-- C8: a `work` call made while no active file handle exists returns the
full requested item count and leaves the model untouched: input is silently
discarded. -/
theorem disabled_sink_drops_input (serSize : PmtDict → Nat) (oracle : Nat → Bool)
    (m : Model) (n : Nat) (tags : List GrTag) :
    work serSize oracle false m n tags = (m, n) := by
  unfold work
  rw [if_neg (by decide : ¬ (false = true))]

/-- C10: construction itself emits exactly one header record, with
`segment_byte_count = 0` and
`segment_start_offset = METADATA_HEADER_SIZE + extra_size`, before any `work`
call. -/
theorem construction_emits_initial_header (serSize : PmtDict → Nat) (isz : Nat)
    (samp rel : ℚ) (typ : Int) (cplx : Bool) (maxseg : Nat) (extra0 : PmtDict) :
    (initModel serSize isz samp rel typ cplx maxseg extra0).headers.length = 1 ∧
    lastBytes (initModel serSize isz samp rel typ cplx maxseg extra0).headers = 0 ∧
    strtOf ((initModel serSize isz samp rel typ cplx maxseg extra0).headers.getLastD ([], []))
      = METADATA_HEADER_SIZE + (initModel serSize isz samp rel typ cplx maxseg extra0).sink.d_extra_size ∧
    (initModel serSize isz samp rel typ cplx maxseg extra0).sink.d_extra_size
      = serSize (initModel serSize isz samp rel typ cplx maxseg extra0).sink.d_extra := by
  refine ⟨rfl, ?_, ?_, rfl⟩
  · exact (initModel_invM serSize isz samp rel typ cplx maxseg extra0).2.2.2.1
  · show strtOf ((initModel serSize isz samp rel typ cplx maxseg extra0).headers.getLastD ([], [])) = _
    simp only [initModel, strtOf]
    show pmt_to_uint64 (dict_ref (dict_add _ "bytes" _) "strt" Pmt.nil) = _
    rw [dict_ref_add_ne _ _ _ _ _ (by decide), dict_ref_add_self]
    rfl

/-- C3: an annotation processed with payload already in the open segment
(`total_seg_items > 0`) finalizes the current header (the last record now
carries the segment's byte count), appends one brand-new header
(`bytes = 0`), and resets `total_seg_items`; with no payload yet
(`total_seg_items = 0`) no record is appended — the last record is rewritten
in place and everything before it is untouched. -/
theorem annotation_close_or_rewrite (serSize : PmtDict → Nat) (tag : GrTag)
    (w : WState) (hne : w.headers ≠ []) (hk : HdrKeysOK w.sink) :
    (0 < w.sink.d_total_seg_size →
      (handleTag serSize tag w).headers.length = w.headers.length + 1 ∧
      (handleTag serSize tag w).sink.d_total_seg_size = 0 ∧
      lastBytes (handleTag serSize tag w).headers = 0 ∧
      lastBytes (handleTag serSize tag w).headers.dropLast
        = w.sink.d_itemsize * w.sink.d_total_seg_size ∧
      (handleTag serSize tag w).headers.dropLast.dropLast = w.headers.dropLast) ∧
    (w.sink.d_total_seg_size = 0 →
      (handleTag serSize tag w).headers.length = w.headers.length ∧
      (handleTag serSize tag w).headers.dropLast = w.headers.dropLast ∧
      (handleTag serSize tag w).sink.d_total_seg_size = 0) := by
  constructor
  · intro hp
    rw [handleTag_pos serSize tag w hp]
    have hk1 := update_last_header_state_keys serSize w.sink hk
    have hk2 := update_header_keys serSize _ tag.key tag.value hk1
    refine ⟨?_, rfl, ?_, ?_, ?_⟩
    · show (setLast w.headers _ ++ [_]).length = w.headers.length + 1
      rw [List.length_append, setLast_length]
      rfl
    · show lastBytes (setLast w.headers _ ++ [_]) = 0
      rw [lastBytes_append]
      exact fresh_rec_bytes serSize _ hk2
    · show lastBytes (setLast w.headers _ ++ [_]).dropLast = _
      rw [List.dropLast_concat]
      show bytesOf ((setLast w.headers _).getLastD ([], [])) = _
      rw [getLastD_setLast _ _ _ hne]
      exact patched_rec_bytes serSize w.sink hk
    · show (setLast w.headers _ ++ [_]).dropLast.dropLast = w.headers.dropLast
      rw [List.dropLast_concat, dropLast_setLast]
  · intro hz
    have hz' : ¬ 0 < w.sink.d_total_seg_size := by omega
    rw [handleTag_zero serSize tag w hz']
    have hk1 := update_header_keys serSize w.sink tag.key tag.value hk
    have hf1 := update_header_config serSize w.sink tag.key tag.value
    have hf2 := update_last_header_state_frame serSize _ hk1
    refine ⟨?_, ?_, ?_⟩
    · show (setLast w.headers _).length = w.headers.length
      exact setLast_length _ _
    · show (setLast w.headers _).dropLast = w.headers.dropLast
      exact dropLast_setLast _ _
    · show (update_last_header_state serSize _).d_total_seg_size = 0
      rw [hf2.2.2.2.1, hf1.2.2.2, hz]

/-- Witness for C3: both branches evaluated; the payload branch at a concrete
state with 3 items in the open segment. -/
theorem annotation_close_or_rewrite_witness :
    (handleTag serLen fixTag fixW).headers.length = fixW.headers.length + 1 ∧
    (handleTag serLen fixTag fixW).sink.d_total_seg_size = 0 ∧
    lastBytes (handleTag serLen fixTag fixW).headers = 0 ∧
    lastBytes (handleTag serLen fixTag fixW).headers.dropLast
      = fixW.sink.d_itemsize * fixW.sink.d_total_seg_size ∧
    (handleTag serLen fixTag fixW).headers.dropLast.dropLast = fixW.headers.dropLast :=
  (annotation_close_or_rewrite serLen fixTag fixW (by simp [fixW])
    (by constructor <;> decide)).1 (by decide)

/-- C4: an annotation on the rate key carrying upstream rate `r` stores
exactly `r * relative_rate` in the header, records `r` as the new upstream
rate, and the subsequent timestamp advance divides the segment item count by
the effective rate `r * relative_rate`. -/
theorem rate_annotation_effective_rate (serSize : PmtDict → Nat)
    (st : SinkState) (r : ℚ) (s : Nat) (f : ℚ)
    (hkey : dict_has_key st.d_header "rx_rate" = true)
    (htime : dict_ref st.d_header "rx_time" Pmt.nil = .tuple2 (.uint64 s) (.dbl f))
    (_hpos : 0 < r * st.d_relative_rate) :
    dict_ref (update_header serSize st "rx_rate" (.dbl r)).d_header "rx_rate" Pmt.nil
      = .dbl (r * st.d_relative_rate) ∧
    (update_header serSize st "rx_rate" (.dbl r)).d_samp_rate = r ∧
    (∃ s2 f2,
      dict_ref (update_rx_time (update_header serSize st "rx_rate" (.dbl r))).d_header "rx_time" Pmt.nil
        = .tuple2 (.uint64 s2) (.dbl f2) ∧
      (s2 : ℚ) + f2 = (s : ℚ) + f
        + (st.d_total_seg_size : ℚ) / (r * st.d_relative_rate)) := by
  rw [update_header_rx_std serSize st r hkey]
  have htime1 : dict_ref ({ st with d_samp_rate := r, d_header := dict_add st.d_header "rx_rate" (.dbl (r * st.d_relative_rate)) } : SinkState).d_header "rx_time" Pmt.nil = .tuple2 (.uint64 s) (.dbl f) := by
    show dict_ref (dict_add st.d_header "rx_rate" (.dbl (r * st.d_relative_rate))) "rx_time" Pmt.nil = _
    rw [dict_ref_add_ne _ _ _ _ _ (by decide)]
    exact htime
  refine ⟨?_, rfl, ?_⟩
  · show dict_ref (dict_add st.d_header "rx_rate" (.dbl (r * st.d_relative_rate))) "rx_rate" Pmt.nil = _
    exact dict_ref_add_self _ _ _ _
  · have hres := update_rx_time_result _ s f htime1
    refine ⟨_, _, hres, ?_⟩
    push_cast
    ring

/-- Witness for C4: upstream rate 2000 with relative rate 1. -/
theorem rate_annotation_effective_rate_witness :
    dict_ref (update_header serLen fixSink "rx_rate" (.dbl 2000)).d_header "rx_rate" Pmt.nil
      = .dbl (2000 * fixSink.d_relative_rate) ∧
    (update_header serLen fixSink "rx_rate" (.dbl 2000)).d_samp_rate = 2000 ∧
    (∃ s2 f2,
      dict_ref (update_rx_time (update_header serLen fixSink "rx_rate" (.dbl 2000))).d_header "rx_time" Pmt.nil
        = .tuple2 (.uint64 s2) (.dbl f2) ∧
      (s2 : ℚ) + f2 = (10 : ℚ) + 7/10
        + (fixSink.d_total_seg_size : ℚ) / (2000 * fixSink.d_relative_rate)) :=
  rate_annotation_effective_rate serLen fixSink 2000 10 (7/10) (by decide) rfl
    (by show (0 : ℚ) < 2000 * 1; norm_num)

/-- Carry arithmetic of the truncate-and-carry step in `update_rx_time`. -/
theorem nat_floor_carry (x : ℚ) (hx : 0 ≤ x) :
    0 ≤ x - ((⌊x⌋.toNat : Nat) : ℚ) ∧ x - ((⌊x⌋.toNat : Nat) : ℚ) < 1 ∧
    ∀ s : Nat, ((s + ⌊x⌋.toNat : Nat) : ℚ) + (x - ((⌊x⌋.toNat : Nat) : ℚ))
      = (s : ℚ) + x := by
  have hfl : (0 : ℤ) ≤ ⌊x⌋ := Int.floor_nonneg.mpr hx
  have hcast : ((⌊x⌋.toNat : Nat) : ℚ) = ((⌊x⌋ : ℤ) : ℚ) := by
    exact_mod_cast Int.toNat_of_nonneg hfl
  refine ⟨?_, ?_, ?_⟩
  · rw [hcast, Int.self_sub_floor]
    exact Int.fract_nonneg x
  · rw [hcast, Int.self_sub_floor]
    exact Int.fract_lt_one x
  · intro s
    rw [Nat.cast_add, hcast]
    ring

/-- C5: the stored timestamp is never advanced by annotation processing
(whenever the annotation's key is not the timestamp key), and each
size-boundary advance by `update_rx_time` adds exactly
`segment_items / effective_rate` seconds, keeping the fractional part in
`[0, 1)` by carrying whole seconds into the integer part. -/
theorem timestamp_advance_semantics (serSize : PmtDict → Nat) :
    (∀ (w : WState) (tag : GrTag), tag.key ≠ "rx_time" →
      dict_ref (handleTag serSize tag w).sink.d_header "rx_time" Pmt.nil
        = dict_ref w.sink.d_header "rx_time" Pmt.nil) ∧
    (∀ (st : SinkState) (s : Nat) (f : ℚ),
      dict_ref st.d_header "rx_time" Pmt.nil = .tuple2 (.uint64 s) (.dbl f) →
      0 ≤ f →
      0 ≤ (st.d_total_seg_size : ℚ) / (st.d_samp_rate * st.d_relative_rate) →
      ∃ s2 f2,
        dict_ref (update_rx_time st).d_header "rx_time" Pmt.nil
          = .tuple2 (.uint64 s2) (.dbl f2) ∧
        0 ≤ f2 ∧ f2 < 1 ∧
        (s2 : ℚ) + f2 = (s : ℚ) + f
          + (st.d_total_seg_size : ℚ) / (st.d_samp_rate * st.d_relative_rate)) := by
  constructor
  · exact fun w tag hk => handleTag_rx_time serSize tag w hk
  · intro st s f htime hf hd
    have hres := update_rx_time_result st s f htime
    have hc := nat_floor_carry
      (f + (st.d_total_seg_size : ℚ) / (st.d_samp_rate * st.d_relative_rate))
      (add_nonneg hf hd)
    refine ⟨_, _, hres, hc.1, hc.2.1, ?_⟩
    rw [hc.2.2 s]
    ring

/-- Witness for C5: the spec example — seconds 10, fraction 0.7, elapsed 0.5
carries to seconds 11, fraction 0.2; and a concrete annotation leaves the
timestamp untouched. -/
theorem timestamp_advance_semantics_witness :
    (dict_ref (handleTag serLen fixTag fixW).sink.d_header "rx_time" Pmt.nil
      = dict_ref fixW.sink.d_header "rx_time" Pmt.nil) ∧
    (∃ s2 f2,
      dict_ref (update_rx_time fixSink).d_header "rx_time" Pmt.nil
        = .tuple2 (.uint64 s2) (.dbl f2) ∧
      0 ≤ f2 ∧ f2 < 1 ∧
      (s2 : ℚ) + f2 = (10 : ℚ) + 7/10
        + (fixSink.d_total_seg_size : ℚ) / (fixSink.d_samp_rate * fixSink.d_relative_rate)) :=
  ⟨(timestamp_advance_semantics serLen).1 fixW fixTag (by decide),
   (timestamp_advance_semantics serLen).2 fixSink 10 (7/10) rfl (by norm_num)
     (by show (0 : ℚ) ≤ (3 : ℚ) / (6 * 1); norm_num)⟩

/-- C7: an `fwrite` reporting a zero count due to an underlying (persistent)
error aborts the write loop immediately — no state advances and no further
items are committed — and `work` returns the number of items committed so
far rather than the requested count. -/
theorem short_write_aborts_and_reports (serSize : PmtDict → Nat) :
    (∀ (oracle : Nat → Bool) (limit : Nat) (b : Bool) (fuel : Nat) (w : WState),
      w.nwritten < limit → oracle w.idx = false →
      writeLoop serSize oracle limit b (fuel + 1) w = { w with idx := w.idx + 1 }) ∧
    (∀ (m : Model) (n : Nat), 0 < n →
      (work serSize (fun _ => false) true m n []).1 = m ∧
      (work serSize (fun _ => false) true m n []).2 = 0 ∧
      (work serSize (fun _ => false) true m n []).2 ≠ n) := by
  constructor
  · intro oracle limit b fuel w h1 hf
    have h0 : chunkCount oracle limit w = 0 := by
      unfold chunkCount
      rw [hf]
      rfl
    exact writeLoop_succ_break serSize oracle limit b fuel w h1 h0
  · intro m n hn
    obtain ⟨n', rfl⟩ : ∃ n', n = n' + 1 := ⟨n - 1, by omega⟩
    rw [work_true_no_tags]
    have h0 : chunkCount (fun _ => false) (n' + 1)
        { nwritten := 0, idx := 0, sink := m.sink, headers := m.headers : WState } = 0 := rfl
    have hbreak := writeLoop_succ_break serSize (fun _ => false) (n' + 1) false n'
      { nwritten := 0, idx := 0, sink := m.sink, headers := m.headers : WState }
      (Nat.succ_pos n') h0
    refine ⟨?_, ?_, ?_⟩
    · show ({ sink := (writeLoop serSize (fun _ => false) (n' + 1) false (n' + 1) { nwritten := 0, idx := 0, sink := m.sink, headers := m.headers }).sink, headers := (writeLoop serSize (fun _ => false) (n' + 1) false (n' + 1) { nwritten := 0, idx := 0, sink := m.sink, headers := m.headers }).headers } : Model) = m
      rw [hbreak]
    · show (writeLoop serSize (fun _ => false) (n' + 1) false (n' + 1) { nwritten := 0, idx := 0, sink := m.sink, headers := m.headers : WState }).nwritten = 0
      rw [hbreak]
    · show (writeLoop serSize (fun _ => false) (n' + 1) false (n' + 1) { nwritten := 0, idx := 0, sink := m.sink, headers := m.headers : WState }).nwritten ≠ n' + 1
      rw [hbreak]
      show (0 : Nat) ≠ n' + 1
      omega

/-- Witness for C7: a failing first `fwrite` on a 2-item call commits nothing
and returns 0, not 2. -/
theorem short_write_aborts_and_reports_witness :
    writeLoop serLen (fun _ => false) 1 false 1 fixW = { fixW with idx := fixW.idx + 1 } ∧
    ((work serLen (fun _ => false) true fixModel 2 []).1 = fixModel ∧
      (work serLen (fun _ => false) true fixModel 2 []).2 = 0 ∧
      (work serLen (fun _ => false) true fixModel 2 []).2 ≠ 2) :=
  ⟨(short_write_aborts_and_reports serLen).1 (fun _ => false) 1 false 0 fixW
      (by decide) rfl,
   (short_write_aborts_and_reports serLen).2 fixModel 2 (by decide)⟩

/-- C9: in inline mode, finalizing the trailing header seeks back from the
current cursor by exactly the segment byte count plus the prior header's
length, rewrites exactly the header-plus-extension bytes there, and restores
the cursor to its original position. -/
theorem inline_finalize_restores_cursor (serSize : PmtDict → Nat)
    (st : SinkState) (pos : Int) (hk : HdrKeysOK st)
    (hhdr : serSize (update_last_header_state serSize st).d_header = METADATA_HEADER_SIZE)
    (hex : serSize st.d_extra = st.d_extra_size)
    (hstrt : dict_ref st.d_header "strt" Pmt.nil = .uint64 (METADATA_HEADER_SIZE + st.d_extra_size)) :
    update_last_header_inline_file serSize st pos
      = (update_last_header_state serSize st, pos,
        [(pos - ((st.d_itemsize * st.d_total_seg_size : Nat) : Int) - ((METADATA_HEADER_SIZE + st.d_extra_size : Nat) : Int), METADATA_HEADER_SIZE + st.d_extra_size)]) := by
  have hextra : (update_last_header_state serSize st).d_extra = st.d_extra :=
    (update_last_header_state_frame serSize st hk).2.2.2.2.1
  have hw : serSize (update_last_header_state serSize st).d_header
      + serSize (update_last_header_state serSize st).d_extra
      = METADATA_HEADER_SIZE + st.d_extra_size := by
    rw [hhdr, hextra, hex]
  have hpos2 : (pos - ((st.d_itemsize * st.d_total_seg_size : Nat) : Int) - ((METADATA_HEADER_SIZE + st.d_extra_size : Nat) : Int)) + ((METADATA_HEADER_SIZE + st.d_extra_size : Nat) : Int) + ((st.d_itemsize * st.d_total_seg_size : Nat) : Int) = pos := by
    push_cast
    ring
  simp only [update_last_header_inline_file, hstrt, pmt_to_uint64, hw]
  rw [hpos2]

/-- Witness for C9: the cursor at 1000 is restored after finalizing a
3-item segment with header length 149. -/
theorem inline_finalize_restores_cursor_witness :
    update_last_header_inline_file serFix fixSink9 1000
      = (update_last_header_state serFix fixSink9, 1000,
        [((1000 : Int) - ((fixSink9.d_itemsize * fixSink9.d_total_seg_size : Nat) : Int) - ((METADATA_HEADER_SIZE + fixSink9.d_extra_size : Nat) : Int), METADATA_HEADER_SIZE + fixSink9.d_extra_size)]) :=
  inline_finalize_restores_cursor serFix fixSink9 1000 (by constructor <;> decide)
    (by decide) (by decide) (by decide)

end FileMetaSink
